import Mathlib

/-!
Verification of the conversation-memory / model-fallback core of the
Messenger-ChatBot repository (src/bot.py, src/config.py).

The Python code mutates module-level dictionaries and list objects, and
`get_user_memory` hands out the *live* list object stored in
`conversation_memory[user_id]["messages"]`.  To be faithful to that, the
embedding models Python list objects through a small heap: `MemState.heap`
holds the list objects (indexed by allocation order) and the per-user table
holds a reference (`messagesRef`) into the heap, exactly as the CPython
objects reference each other.  In-place mutation (`list.append`) writes the
heap cell; rebinding (`user_data["messages"] = ...[-N:]`, which allocates a
new list) allocates a fresh cell and updates the table, leaving old
references to the previous object intact.

Network effects (the Groq HTTP endpoint and the Facebook send API) are
modelled by oracles giving, per request, the outcome the remote side
produced; every in-process decision of the source is reproduced from those
outcomes.
-/

namespace MessengerBot

/-! ### Configuration constants (src/config.py) -/

def GROQ_MODEL_HIERARCHY : List String :=
  ["llama-3.3-70b-versatile",
   "meta-llama/llama-4-scout-17b-16e-instruct",
   "openai/gpt-oss-120b",
   "qwen/qwen3-32b",
   "llama-3.1-8b-instant"]

def GROQ_SYSTEM_PROMPT : String :=
  "You are PrawnKing, a Messenger bot with an insanely humorous personality.\n\nPersonality:\n- You LOVE making dad jokes and puns\n- Friendly and genuinely helpful\n- Keep responses SHORT - maximum 5 sentences\n\nRules:\n- ALWAYS respond in the same language the user is using\n- Answer any questions helpfully, but avoid sensitive topics\n- NEVER make up facts - if you\x27re unsure about something, say so honestly\n- No markdown, but format your response nicely according to requests like coding\n"

def GROQ_MAX_TOKENS : Nat := 1000

def MEMORY_MAX_MESSAGES : Nat := 40

def MEMORY_IDLE_TIMEOUT : Nat := 60

/-! ### Conversation memory (src/bot.py lines 33-66) -/

/-- One `{"role": ..., "content": ...}` dict. -/
structure Message where
  role : String
  content : String
deriving DecidableEq

/-- The per-user record `{"messages": <list object>, "last_active": <time>}`;
`messagesRef` is the heap reference of the messages list object. -/
structure UserRecord where
  messagesRef : Nat
  last_active : Nat
deriving DecidableEq

/-- The module-level mutable state backing `conversation_memory`: a heap of
list objects plus the dict from user id to record.  Timestamps are naturals
(`time.time()` is monotone across the events a claim considers). -/
structure MemState where
  heap : List (List Message)
  table : List (String × UserRecord)
deriving DecidableEq

/-- Reading the list object a reference denotes. -/
def MemState.read (s : MemState) (r : Nat) : List Message :=
  s.heap.getD r []

/-- Python dict lookup (first, hence unique, binding of the key). -/
def lookupUser : List (String × UserRecord) → String → Option UserRecord
  | [], _ => none
  | p :: ps, uid => if p.1 = uid then some p.2 else lookupUser ps uid

/-- Python dict assignment: overwrite in place if present, else append. -/
def setUser : List (String × UserRecord) → String → UserRecord → List (String × UserRecord)
  | [], uid, r => [(uid, r)]
  | p :: ps, uid, r => if p.1 = uid then (uid, r) :: ps else p :: setUser ps uid r

/-- `get_user_memory` (src/bot.py lines 38-53).  Returns the updated state and
the heap reference of the list object the Python function returns: the live
`user_data["messages"]` object for a present, non-expired user, and a freshly
allocated empty list (`return []`) for an expired or new user.  For an
expired or new user the record itself also gets its own fresh empty list. -/
def get_user_memory (s : MemState) (uid : String) (t : Nat) : MemState × Nat :=
  match lookupUser s.table uid with
  | some ud =>
    if t - ud.last_active > MEMORY_IDLE_TIMEOUT then
      let s1 : MemState := ⟨s.heap ++ [[]], setUser s.table uid ⟨s.heap.length, t⟩⟩
      (⟨s1.heap ++ [[]], s1.table⟩, s1.heap.length)
    else (s, ud.messagesRef)
  | none =>
    let s1 : MemState := ⟨s.heap ++ [[]], setUser s.table uid ⟨s.heap.length, t⟩⟩
    (⟨s1.heap ++ [[]], s1.table⟩, s1.heap.length)

/-- Body of `add_to_memory` (src/bot.py lines 60-66) once the record `ud` for
`uid` is known to be in the table: update `last_active`, append the new turn
to the messages list object *in place*, and if the list is now over
`MEMORY_MAX_MESSAGES`, rebind the record to the new list object created by
the slice `[-MEMORY_MAX_MESSAGES:]` (old references keep the untrimmed
object). -/
def add_to_memory_core (s : MemState) (uid role content : String) (t : Nat)
    (ud : UserRecord) : MemState :=
  let s1 : MemState := ⟨s.heap, setUser s.table uid ⟨ud.messagesRef, t⟩⟩
  let msgs := s1.read ud.messagesRef ++ [⟨role, content⟩]
  let s2 : MemState := ⟨s1.heap.set ud.messagesRef msgs, s1.table⟩
  if msgs.length > MEMORY_MAX_MESSAGES then
    ⟨s2.heap ++ [msgs.drop (msgs.length - MEMORY_MAX_MESSAGES)],
     setUser s2.table uid ⟨s2.heap.length, t⟩⟩
  else s2

/-- `add_to_memory` (src/bot.py lines 55-66): create the record if absent
(lines 57-58), then run the mutation body. -/
def add_to_memory (s : MemState) (uid role content : String) (t : Nat) : MemState :=
  match lookupUser s.table uid with
  | some ud => add_to_memory_core s uid role content t ud
  | none =>
    let s' : MemState := ⟨s.heap ++ [[]], setUser s.table uid ⟨s.heap.length, t⟩⟩
    add_to_memory_core s' uid role content t ⟨s.heap.length, t⟩

/-- The conversation history currently stored for a user (dereferencing the
record's current messages object); `[]` when the user has no record. -/
def userMessages (s : MemState) (uid : String) : List Message :=
  match lookupUser s.table uid with
  | some ud => s.read ud.messagesRef
  | none => []

/-- Heap well-formedness: every record references an allocated list object.
All states reachable from the initial empty state satisfy this. -/
def WF (s : MemState) : Prop :=
  ∀ q ∈ s.table, q.2.messagesRef < s.heap.length

instance (s : MemState) : Decidable (WF s) := by
  unfold WF; infer_instance

/-! ### Groq completion call (src/bot.py lines 72-122) -/

/-- What the provider does with one `requests.post` for one model: either the
call raises a `requests.RequestException` (transport failure / timeout), or a
response arrives with a status code and, when the body is JSON, the value of
`body["choices"][0]["message"]["content"]` — `none` when that chain of fields
is absent (so reading it raises `KeyError`/`IndexError`). -/
inductive ProviderOutcome
  | raiseTransport
  | respond (status : Nat) (content : Option String)
deriving DecidableEq

/-- The literal returned at src/bot.py line 122. -/
def FALLBACK_REPLY : String :=
  "Sorry, I\x27m having trouble thinking right now. Please try again later."

/-- Result of the model loop: final memory state, the returned string or an
uncaught exception (`Except.error`), and the models actually attempted in
order. -/
structure LoopOut where
  state : MemState
  result : Except Unit String
  attempted : List String

/-- The `for model in GROQ_MODEL_HIERARCHY` loop (src/bot.py lines 86-122).
Per model: a raised `RequestException` is caught and the loop continues
(line 118); status 429 continues (line 103); `raise_for_status` on a 4xx/5xx
raises `requests.HTTPError`, a `RequestException`, caught, continue
(line 107); otherwise the content is extracted — if the fields are missing
the `KeyError` is *not* a `RequestException` and propagates (`Except.error`);
on success the stripped content is appended to memory as an assistant turn
and returned.  An exhausted loop returns the fallback literal (line 122). -/
def try_models (s : MemState) (uid : String) (o : String → ProviderOutcome) (t : Nat) :
    List String → LoopOut
  | [] => ⟨s, Except.ok FALLBACK_REPLY, []⟩
  | m :: rest =>
    match o m with
    | ProviderOutcome.raiseTransport =>
      let r := try_models s uid o t rest
      ⟨r.state, r.result, m :: r.attempted⟩
    | ProviderOutcome.respond status content =>
      if status = 429 then
        let r := try_models s uid o t rest
        ⟨r.state, r.result, m :: r.attempted⟩
      else if 400 ≤ status ∧ status < 600 then
        let r := try_models s uid o t rest
        ⟨r.state, r.result, m :: r.attempted⟩
      else
        match content with
        | some c =>
          let result := c.trim
          ⟨add_to_memory s uid "assistant" result t, Except.ok result, [m]⟩
        | none => ⟨s, Except.error (), [m]⟩

/-- Everything observable about one `generate_response` call: the final
memory state, the return value (or uncaught exception), the models
attempted, and the `messages` payload posted to the provider. -/
structure GenResult where
  state : MemState
  result : Except Unit String
  attempted : List String
  messages : List Message

/-- `generate_response` (src/bot.py lines 72-122).  `history` is the list
*object* returned by `get_user_memory`; `messages.extend(history)` (line 82)
reads that object *after* `add_to_memory` (line 78) has run, which is why the
heap reference is dereferenced only then. -/
def generate_response (s : MemState) (uid prompt : String) (t : Nat)
    (o : String → ProviderOutcome) : GenResult :=
  let got := get_user_memory s uid t
  let s2 := add_to_memory got.1 uid "user" prompt t
  let history := s2.read got.2
  let messages := ⟨"system", GROQ_SYSTEM_PROMPT⟩ :: (history ++ [⟨"user", prompt⟩])
  let out := try_models s2 uid o t GROQ_MODEL_HIERARCHY
  ⟨out.state, out.result, out.attempted, messages⟩

/-! ### Reply cache (src/bot.py lines 138-149) -/

def MESSAGE_STORE_SIZE : Nat := 200

/-- A cached `{"content": ..., "role": ...}` entry. -/
structure CachedMsg where
  content : String
  role : String
deriving DecidableEq

/-- Keys of `message_store` are whatever `event["message"].get("mid")`
produced — a string or Python `None` — so the key type is `Option String`. -/
def lookupStore : List (Option String × CachedMsg) → Option String → Option CachedMsg
  | [], _ => none
  | p :: ps, k => if p.1 = k then some p.2 else lookupStore ps k

def setStore : List (Option String × CachedMsg) → Option String → CachedMsg →
    List (Option String × CachedMsg)
  | [], k, v => [(k, v)]
  | p :: ps, k, v => if p.1 = k then (k, v) :: ps else p :: setStore ps k v

/-- `cache_message` (src/bot.py lines 142-149): when the dict is at or over
capacity, delete the first (oldest-inserted) key, then assign. -/
def cache_message (store : List (Option String × CachedMsg)) (mid : Option String)
    (content role : String) : List (Option String × CachedMsg) :=
  let store' := if MESSAGE_STORE_SIZE ≤ store.length then store.drop 1 else store
  setStore store' mid ⟨content, role⟩

/-- Iterated `cache_message` calls (harness for the capacity claim); each
entry is `(mid, content, role)`. -/
def cache_messages_fold (store : List (Option String × CachedMsg))
    (entries : List (Option String × String × String)) : List (Option String × CachedMsg) :=
  entries.foldl (fun st e => cache_message st e.1 e.2.1 e.2.2) store

/-! ### Outbound send (src/bot.py lines 205-227) -/

/-- `chunksFrom fuel l` computes the list comprehension
`[text[i:i+2000] for i in range(0, len(text), 2000)]` (src/bot.py line 210)
by repeatedly taking 2000 characters; `fuel = l.length` is always enough
since every emitted chunk is non-empty. -/
def chunksFrom : Nat → List Char → List (List Char)
  | 0, _ => []
  | _ + 1, [] => []
  | fuel + 1, c :: l => (c :: l).take 2000 :: chunksFrom fuel ((c :: l).drop 2000)

/-- The chunk list `send_message` iterates over. -/
def chunkText (text : String) : List String :=
  (chunksFrom text.data.length text.data).map String.mk

/-- What the Facebook send endpoint does with one chunk post: raise a
`requests.RequestException` (or answer non-2xx, making `raise_for_status`
raise — both are caught at line 225), or succeed with a JSON body that may
carry a `message_id`. -/
inductive SendOutcome
  | raiseErr
  | okWith (message_id : Option String)
deriving DecidableEq

/-- `send_message` (src/bot.py lines 205-227): chunk the text, post every
chunk (failures are caught per chunk and do not stop the loop), and cache
each successfully sent chunk under the provider-assigned message id when one
is present.  `sendO i` is the sink's outcome for the `i`-th chunk post.
Returns the updated `message_store` and the chunks posted, in order. -/
def send_message (store : List (Option String × CachedMsg)) (recipient text : String)
    (sendO : Nat → SendOutcome) : List (Option String × CachedMsg) × List String :=
  let chunks := chunkText text
  (((chunks.zip (List.range chunks.length)).foldl (fun st p =>
      match sendO p.2 with
      | SendOutcome.raiseErr => st
      | SendOutcome.okWith none => st
      | SendOutcome.okWith (some mid) => cache_message st (some mid) p.1 "assistant") store),
   chunks)

/-! ### Webhook handler (src/bot.py lines 151-203) -/

def MESSAGE_CACHE_SIZE : Nat := 200

/-- One entry of `entry["messaging"]` that carries `message.text`:
`mid = event["message"].get("mid")` may be absent (`none`);
`reply_to = some r` when `event["message"]` has a `reply_to` dict whose
`.get("mid")` is `r`.  `isDeliveryOrRead` marks receipt events (line 160). -/
structure Event where
  sender : String
  mid : Option String
  text : String
  reply_to : Option (Option String)
  isDeliveryOrRead : Bool

/-- Webhook state: conversation memory, the `processed_messages` dedup set
(a list of its distinct elements), and `message_store`. -/
structure BotState where
  mem : MemState
  processed : List (Option String)
  message_store : List (Option String × CachedMsg)

/-- The `full_message` handed to `generate_response` (src/bot.py lines
179-190): the bracketed reply-context line — resolved against the reply
cache *after* the inbound message was cached (line 176 precedes line 182) —
prefixed to the message text. -/
def handlePrompt (st : BotState) (e : Event) : String :=
  (match e.reply_to with
   | none => ""
   | some rmid =>
     match lookupStore (cache_message st.message_store e.mid e.text "user") rmid with
     | some replied =>
       "[Replying to " ++ (if replied.role = "assistant" then "Bot" else "User")
         ++ ": \"" ++ replied.content.take 100 ++ "\"]\n"
     | none => "") ++ e.text

/-- One iteration of the `handle_messages` event loop (src/bot.py lines
159-201) on a text-message event.  `processed_messages.pop()` removes an
*arbitrary* element of the set; the choice is supplied from outside as an
index `popIdx` so that theorems quantify over every possible choice.  An
uncaught exception from `generate_response` aborts the request
(`Except.error` carries the state at the crash); otherwise the result is
the new state, whether a turn was processed, and the chunks posted. -/
def handle_event (st : BotState) (e : Event) (t : Nat) (o : String → ProviderOutcome)
    (popIdx : Nat) (sendO : Nat → SendOutcome) :
    Except BotState (BotState × Bool × List String) :=
  if e.isDeliveryOrRead then Except.ok (st, false, [])
  else if st.processed.contains e.mid then Except.ok (st, false, [])
  else
    let processed0 := st.processed ++ [e.mid]
    let processed :=
      if MESSAGE_CACHE_SIZE < processed0.length then
        processed0.eraseIdx (popIdx % processed0.length)
      else processed0
    let store := cache_message st.message_store e.mid e.text "user"
    let g := generate_response st.mem e.sender (handlePrompt st e) t o
    match g.result with
    | Except.error _ => Except.error ⟨g.state, processed, store⟩
    | Except.ok response_text =>
      let sent := send_message store e.sender response_text sendO
      Except.ok (⟨g.state, processed, sent.1⟩, true, sent.2)

/-- A provider oracle is benign when every success-status response carries a
well-formed body (i.e. a missing `choices[0].message.content` only ever
comes with a 429 or an error status, where it is never read). -/
def OracleBenign (o : String → ProviderOutcome) : Prop :=
  ∀ m status, o m = ProviderOutcome.respond status none →
    status = 429 ∨ (400 ≤ status ∧ status < 600)

/-! ### Derived notions used by the claims -/

/-- The last `n` elements of a list, in order. -/
def lastN (n : Nat) (l : List α) : List α :=
  l.drop (l.length - n)

/-- The `{role, content}` message a `(role, content, time)` append produces. -/
def toMsg (e : String × String × Nat) : Message :=
  ⟨e.1, e.2.1⟩

/-- Iterated `add_to_memory` calls for one user (harness for the memory
claims); each entry is `(role, content, time)`. -/
def append_turns (s : MemState) (uid : String) (ts : List (String × String × Nat)) : MemState :=
  ts.foldl (fun st e => add_to_memory st uid e.1 e.2.1 e.2.2) s

/-- The lengths `chunksFrom` produces, computed on lengths alone (used to
state the 4500-character instance without evaluating 4500-element lists). -/
def lensFrom : Nat → Nat → List Nat
  | 0, _ => []
  | _ + 1, 0 => []
  | fuel + 1, n + 1 => min 2000 (n + 1) :: lensFrom fuel (n + 1 - 2000)

/-- A per-model outcome the loop treats as "try next model": a raised
`RequestException`, a 429, or an error status that makes `raise_for_status`
raise. -/
def attempt_fails : ProviderOutcome → Bool
  | ProviderOutcome.raiseTransport => true
  | ProviderOutcome.respond status _ =>
    (status == 429) || (decide (400 ≤ status) && decide (status < 600))

/-- Oracle for concrete instances: every model answers 429. -/
def oracle429 : String → ProviderOutcome := fun _ => ProviderOutcome.respond 429 none

/-- Oracle for concrete instances: every model answers 200 with a body that
lacks `choices[0].message.content`. -/
def oracle200none : String → ProviderOutcome := fun _ => ProviderOutcome.respond 200 none

/-- Oracle for concrete instances: model list `[A, B, C]` where A is
rate-limited and every other model succeeds. -/
def oracleAB : String → ProviderOutcome := fun m =>
  if m = "A" then ProviderOutcome.respond 429 none
  else ProviderOutcome.respond 200 (some "  Hi there!  ")

/-- Send-sink oracle for concrete instances: every chunk post fails. -/
def sendErr : Nat → SendOutcome := fun _ => SendOutcome.raiseErr

/-- The `i`-th distinct mid entry for the capacity instance: the mid is the
string of `i` letters `a`, content `"c"`, role `"user"`. -/
def midEntry (i : Nat) : Option String × String × String :=
  (some (String.mk (List.replicate i 'a')), "c", "user")

/-- 200 further distinct mid entries following `midEntry 0`. -/
def restEntries : List (Option String × String × String) :=
  (List.range 200).map (fun i => midEntry (i + 1))

/-- A concrete text event for the dedup instances. -/
def helloEvent : Event := ⟨"s1", some "m1", "Hello", none, false⟩

/-- A concrete text event with no `mid` field. -/
def noMidEvent : Event := ⟨"s1", none, "Hello", none, false⟩

/-- Another mid-less text event, different sender and text. -/
def noMidEvent2 : Event := ⟨"s2", none, "Other text", none, false⟩

/-! ### Heap and table lemmas -/

theorem getD_set_self {α : Type} (l : List α) (i : Nat) (a d : α) (h : i < l.length) :
    (l.set i a).getD i d = a := by
  simp [List.getD, List.getElem?_set_self h]

theorem getD_append_left {α : Type} (l r : List α) (i : Nat) (d : α) (h : i < l.length) :
    ((l ++ r).getD i d) = l.getD i d := by
  simp [List.getD, List.getElem?_append_left h]

theorem getD_concat_length {α : Type} (l : List α) (a d : α) :
    ((l ++ [a]).getD l.length d) = a := by
  simp [List.getD, List.getElem?_concat_length]

theorem lookupUser_setUser_self (tbl : List (String × UserRecord)) (uid : String)
    (r : UserRecord) : lookupUser (setUser tbl uid r) uid = some r := by
  induction tbl with
  | nil => simp [setUser, lookupUser]
  | cons p ps ih =>
    by_cases h : p.1 = uid
    · simp [setUser, lookupUser, h]
    · simp [setUser, lookupUser, h, ih]

theorem mem_setUser (tbl : List (String × UserRecord)) (uid : String) (r : UserRecord)
    (q : String × UserRecord) (hq : q ∈ setUser tbl uid r) : q = (uid, r) ∨ q ∈ tbl := by
  induction tbl with
  | nil => simpa [setUser] using hq
  | cons p ps ih =>
    by_cases h : p.1 = uid
    · simp only [setUser, if_pos h, List.mem_cons] at hq
      rcases hq with hq | hq
      · exact Or.inl hq
      · exact Or.inr (List.mem_cons_of_mem _ hq)
    · simp only [setUser, if_neg h, List.mem_cons] at hq
      rcases hq with hq | hq
      · exact Or.inr (by simp [hq])
      · rcases ih hq with hq | hq
        · exact Or.inl hq
        · exact Or.inr (List.mem_cons_of_mem _ hq)

theorem mem_of_lookupUser (tbl : List (String × UserRecord)) (uid : String)
    (ud : UserRecord) (h : lookupUser tbl uid = some ud) : (uid, ud) ∈ tbl := by
  induction tbl with
  | nil => simp [lookupUser] at h
  | cons p ps ih =>
    by_cases hp : p.1 = uid
    · simp only [lookupUser, if_pos hp] at h
      cases h
      have hpp : p = (uid, p.2) := by
        cases p with
        | mk a b => simp_all
      rw [← hpp]
      exact List.mem_cons_self _ _
    · simp only [lookupUser, if_neg hp] at h
      exact List.mem_cons_of_mem _ (ih h)

@[simp] theorem heap_mk (h : List (List Message)) (tbl : List (String × UserRecord)) :
    (MemState.mk h tbl).heap = h := rfl

@[simp] theorem table_mk (h : List (List Message)) (tbl : List (String × UserRecord)) :
    (MemState.mk h tbl).table = tbl := rfl

@[simp] theorem read_mk (h : List (List Message)) (tbl : List (String × UserRecord)) (r : Nat) :
    (MemState.mk h tbl).read r = h.getD r [] := rfl

/-! ### The memory-append step characterised -/

theorem userMessages_add (s : MemState) (uid role content : String) (t : Nat) (hwf : WF s) :
    userMessages (add_to_memory s uid role content t) uid
      = (userMessages s uid ++ [(⟨role, content⟩ : Message)]).drop
          ((userMessages s uid).length + 1 - MEMORY_MAX_MESSAGES) := by
  cases hlk : lookupUser s.table uid with
  | some ud =>
    have hr : ud.messagesRef < s.heap.length := hwf _ (mem_of_lookupUser _ _ _ hlk)
    have hum : userMessages s uid = s.heap.getD ud.messagesRef [] := by
      simp [userMessages, hlk, MemState.read]
    rw [hum]
    simp only [add_to_memory, hlk]
    unfold add_to_memory_core
    simp only [read_mk, table_mk, heap_mk, MemState.read]
    split_ifs with hlen
    · simp only [userMessages, table_mk, lookupUser_setUser_self, read_mk, List.length_set,
        getD_concat_length]
      simp
    · simp only [userMessages, table_mk, lookupUser_setUser_self, read_mk]
      rw [getD_set_self _ _ _ _ hr]
      have h0 : (s.heap.getD ud.messagesRef []).length + 1 - MEMORY_MAX_MESSAGES = 0 := by
        simp only [List.length_append, List.length_cons, List.length_nil] at hlen
        omega
      rw [h0, List.drop_zero]
  | none =>
    have hum : userMessages s uid = [] := by
      simp [userMessages, hlk]
    rw [hum]
    simp only [add_to_memory, hlk]
    unfold add_to_memory_core
    simp only [read_mk, table_mk, heap_mk, getD_concat_length]
    split_ifs with hlen
    · simp [MEMORY_MAX_MESSAGES] at hlen
    · simp only [userMessages, table_mk, lookupUser_setUser_self, read_mk]
      rw [getD_set_self]
      · simp [MEMORY_MAX_MESSAGES]
      · simp

theorem WF_core (s : MemState) (uid role content : String) (t : Nat) (ud : UserRecord)
    (hwf : WF s) (hr : ud.messagesRef < s.heap.length) :
    WF (add_to_memory_core s uid role content t ud) := by
  unfold add_to_memory_core
  simp only [read_mk, table_mk, heap_mk, MemState.read]
  split_ifs with hlen
  · intro q hq
    simp only [table_mk, heap_mk, List.length_append, List.length_set]
    rcases mem_setUser _ _ _ _ hq with h | h
    · rw [h]
      simp [List.length_set]
    · rcases mem_setUser _ _ _ _ h with h2 | h2
      · rw [h2]
        simpa using Nat.lt_succ_of_lt hr
      · exact Nat.lt_succ_of_lt (hwf q h2)
  · intro q hq
    simp only [table_mk, heap_mk, List.length_set]
    rcases mem_setUser _ _ _ _ hq with h | h
    · rw [h]
      exact hr
    · exact hwf q h

theorem WF_add (s : MemState) (uid role content : String) (t : Nat) (hwf : WF s) :
    WF (add_to_memory s uid role content t) := by
  unfold add_to_memory
  cases hlk : lookupUser s.table uid with
  | some ud =>
    exact WF_core s uid role content t ud hwf (hwf _ (mem_of_lookupUser _ _ _ hlk))
  | none =>
    refine WF_core _ uid role content t _ ?_ ?_
    · intro q hq
      simp only [table_mk, heap_mk, List.length_append]
      rcases mem_setUser _ _ _ _ hq with h | h
      · rw [h]; simp
      · exact Nat.lt_succ_of_lt (hwf q h)
    · simp

theorem WF_get (s : MemState) (uid : String) (t : Nat) (hwf : WF s) :
    WF (get_user_memory s uid t).1 := by
  cases hlk : lookupUser s.table uid with
  | some ud =>
    simp only [get_user_memory, hlk]
    split_ifs with hexp
    · intro q hq
      simp only [table_mk, heap_mk, List.length_append] at hq ⊢
      rcases mem_setUser _ _ _ _ hq with h | h
      · rw [h]; simp; omega
      · have := hwf q h; omega
    · exact hwf
  | none =>
    simp only [get_user_memory, hlk]
    intro q hq
    simp only [table_mk, heap_mk, List.length_append] at hq ⊢
    rcases mem_setUser _ _ _ _ hq with h | h
    · rw [h]; simp; omega
    · have := hwf q h; omega

/-! ### Suffix (`lastN`) algebra -/

theorem length_lastN (n : Nat) (l : List α) : (lastN n l).length = min n l.length := by
  simp only [lastN, List.length_drop]
  omega

theorem lastN_append (n : Nat) (l r : List α) :
    lastN n (l ++ r)
      = if n ≤ r.length then lastN n r else lastN (n - r.length) l ++ r := by
  unfold lastN
  split_ifs with h
  · have hi : (l ++ r).length - n = l.length + (r.length - n) := by
      simp only [List.length_append]; omega
    rw [hi, List.drop_append]
  · have hi : (l ++ r).length - n = l.length - (n - r.length) := by
      simp only [List.length_append]; omega
    rw [hi, List.drop_append_of_le_length (by omega)]

theorem lastN_lastN (m n : Nat) (l : List α) (h : m ≤ n) :
    lastN m (lastN n l) = lastN m l := by
  unfold lastN
  rw [List.drop_drop]
  congr 1
  simp only [List.length_drop]
  omega

theorem lastN_lastN_append (n : Nat) (l r : List α) :
    lastN n (lastN n l ++ r) = lastN n (l ++ r) := by
  rw [lastN_append, lastN_append]
  split_ifs with h
  · rfl
  · rw [lastN_lastN _ _ _ (by omega)]

/-! ### Iterated appends -/

theorem userMessages_append_turns (uid : String) (ts : List (String × String × Nat)) :
    ∀ s : MemState, WF s → (userMessages s uid).length ≤ MEMORY_MAX_MESSAGES →
      userMessages (append_turns s uid ts) uid
          = lastN MEMORY_MAX_MESSAGES (userMessages s uid ++ ts.map toMsg)
        ∧ WF (append_turns s uid ts) := by
  induction ts with
  | nil =>
    intro s hwf hlen
    refine ⟨?_, hwf⟩
    simp only [append_turns, List.foldl_nil, List.map_nil, List.append_nil, lastN]
    have : (userMessages s uid).length - MEMORY_MAX_MESSAGES = 0 := by omega
    rw [this, List.drop_zero]
  | cons e ts ih =>
    intro s hwf hlen
    have hstep : append_turns s uid (e :: ts)
        = append_turns (add_to_memory s uid e.1 e.2.1 e.2.2) uid ts := rfl
    have hwf' := WF_add s uid e.1 e.2.1 e.2.2 hwf
    have hadd := userMessages_add s uid e.1 e.2.1 e.2.2 hwf
    have hform : userMessages (add_to_memory s uid e.1 e.2.1 e.2.2) uid
        = lastN MEMORY_MAX_MESSAGES (userMessages s uid ++ [toMsg e]) := by
      rw [hadd]
      simp [lastN, toMsg]
    have hlen' : (userMessages (add_to_memory s uid e.1 e.2.1 e.2.2) uid).length
        ≤ MEMORY_MAX_MESSAGES := by
      rw [hform, length_lastN]
      omega
    obtain ⟨ih1, ih2⟩ := ih (add_to_memory s uid e.1 e.2.1 e.2.2) hwf' hlen'
    rw [hstep]
    refine ⟨?_, ih2⟩
    rw [ih1, hform, lastN_lastN_append]
    simp [List.append_assoc]

/-! ### The model-fallback loop characterised -/

theorem try_models_fail_cons (s : MemState) (uid : String) (o : String → ProviderOutcome)
    (t : Nat) (m : String) (rest : List String) (h : attempt_fails (o m) = true) :
    try_models s uid o t (m :: rest)
      = ⟨(try_models s uid o t rest).state, (try_models s uid o t rest).result,
         m :: (try_models s uid o t rest).attempted⟩ := by
  cases ho : o m with
  | raiseTransport => simp only [try_models, ho]
  | respond status content =>
    by_cases h429 : status = 429
    · simp only [try_models, ho, if_pos h429]
    · have hrange : 400 ≤ status ∧ status < 600 := by
        simp only [attempt_fails, ho, Bool.or_eq_true, beq_iff_eq, Bool.and_eq_true,
          decide_eq_true_eq] at h
        tauto
      simp only [try_models, ho, if_neg h429, if_pos hrange]

theorem try_models_all_fail (s : MemState) (uid : String) (o : String → ProviderOutcome)
    (t : Nat) : ∀ ms : List String, (∀ x ∈ ms, attempt_fails (o x) = true) →
    try_models s uid o t ms = ⟨s, Except.ok FALLBACK_REPLY, ms⟩ := by
  intro ms
  induction ms with
  | nil => intro _; rfl
  | cons m rest ih =>
    intro h
    rw [try_models_fail_cons _ _ _ _ _ _ (h m (by simp))]
    rw [ih (fun x hx => h x (by simp [hx]))]

theorem try_models_success_cons (s : MemState) (uid : String) (o : String → ProviderOutcome)
    (t : Nat) (m : String) (rest : List String) (status : Nat) (c : String)
    (hm : o m = ProviderOutcome.respond status (some c))
    (hok : attempt_fails (o m) = false) :
    try_models s uid o t (m :: rest)
      = ⟨add_to_memory s uid "assistant" c.trim t, Except.ok c.trim, [m]⟩ := by
  rw [hm] at hok
  simp only [attempt_fails, Bool.or_eq_false_iff, beq_eq_false_iff_ne, ne_eq,
    Bool.and_eq_false_iff, decide_eq_false_iff_not] at hok
  have hrange : ¬(400 ≤ status ∧ status < 600) := by
    intro hc
    rcases hok.2 with h | h
    · exact h hc.1
    · exact h hc.2
  simp only [try_models, hm, if_neg hok.1, if_neg hrange]

theorem try_models_split (s : MemState) (uid : String) (o : String → ProviderOutcome)
    (t : Nat) (ms₁ : List String) (m : String) (ms₂ : List String) (status : Nat) (c : String)
    (hfail : ∀ x ∈ ms₁, attempt_fails (o x) = true)
    (hm : o m = ProviderOutcome.respond status (some c))
    (hok : attempt_fails (o m) = false) :
    try_models s uid o t (ms₁ ++ m :: ms₂)
      = ⟨add_to_memory s uid "assistant" c.trim t, Except.ok c.trim, ms₁ ++ [m]⟩ := by
  induction ms₁ with
  | nil => simpa using try_models_success_cons s uid o t m ms₂ status c hm hok
  | cons a as ih =>
    rw [List.cons_append, try_models_fail_cons _ _ _ _ _ _ (hfail a (by simp))]
    rw [ih (fun x hx => hfail x (by simp [hx]))]
    rfl

theorem try_models_benign (s : MemState) (uid : String) (o : String → ProviderOutcome)
    (t : Nat) (hb : OracleBenign o) :
    ∀ ms : List String, ∃ r, (try_models s uid o t ms).result = Except.ok r := by
  intro ms
  induction ms with
  | nil => exact ⟨FALLBACK_REPLY, rfl⟩
  | cons m rest ih =>
    cases ho : o m with
    | raiseTransport =>
      obtain ⟨r, hr⟩ := ih
      refine ⟨r, ?_⟩
      simp only [try_models, ho]
      exact hr
    | respond status content =>
      by_cases h429 : status = 429
      · obtain ⟨r, hr⟩ := ih
        refine ⟨r, ?_⟩
        simp only [try_models, ho, if_pos h429]
        exact hr
      · by_cases hrange : 400 ≤ status ∧ status < 600
        · obtain ⟨r, hr⟩ := ih
          refine ⟨r, ?_⟩
          simp only [try_models, ho, if_neg h429, if_pos hrange]
          exact hr
        · cases content with
          | some c =>
            exact ⟨c.trim, by simp only [try_models, ho, if_neg h429, if_neg hrange]⟩
          | none =>
            rcases hb m status ho with h | h
            · exact absurd h h429
            · exact absurd h hrange

theorem generate_response_benign (s : MemState) (uid prompt : String) (t : Nat)
    (o : String → ProviderOutcome) (hb : OracleBenign o) :
    ∃ r, (generate_response s uid prompt t o).result = Except.ok r := by
  obtain ⟨r, hr⟩ := try_models_benign
    (add_to_memory (get_user_memory s uid t).1 uid "user" prompt t) uid o t hb
    GROQ_MODEL_HIERARCHY
  exact ⟨r, hr⟩

/-! ### Chunking lemmas -/

theorem chunksFrom_flatten : ∀ (fuel : Nat) (l : List Char), l.length ≤ fuel →
    (chunksFrom fuel l).flatten = l := by
  intro fuel
  induction fuel with
  | zero =>
    intro l hl
    have : l = [] := List.eq_nil_of_length_eq_zero (Nat.le_zero.mp hl)
    simp [this, chunksFrom]
  | succ fuel ih =>
    intro l hl
    cases l with
    | nil => simp [chunksFrom]
    | cons c cs =>
      have hrec := ih ((c :: cs).drop 2000)
        (by simp only [List.length_drop, List.length_cons] at hl ⊢; omega)
      simp only [chunksFrom, List.flatten_cons, hrec, List.take_append_drop]

theorem chunksFrom_mem_length : ∀ (fuel : Nat) (l : List Char) (ch : List Char),
    ch ∈ chunksFrom fuel l → ch.length ≤ 2000 := by
  intro fuel
  induction fuel with
  | zero => intro l ch h; simp [chunksFrom] at h
  | succ fuel ih =>
    intro l ch h
    cases l with
    | nil => simp [chunksFrom] at h
    | cons c cs =>
      simp only [chunksFrom, List.mem_cons] at h
      rcases h with h | h
      · rw [h]
        simp [List.length_take]
      · exact ih _ _ h

theorem chunksFrom_map_length : ∀ (fuel : Nat) (l : List Char),
    (chunksFrom fuel l).map List.length = lensFrom fuel l.length := by
  intro fuel
  induction fuel with
  | zero => intro l; rfl
  | succ fuel ih =>
    intro l
    cases l with
    | nil => rfl
    | cons c cs =>
      simp only [chunksFrom, List.map_cons, ih, List.length_take, List.length_drop,
        List.length_cons, lensFrom]

theorem foldl_strAppend_map_mk (ls : List (List Char)) :
    ∀ acc : List Char, (ls.map String.mk).foldl (fun r s => r ++ s) (String.mk acc)
      = String.mk (acc ++ ls.flatten) := by
  induction ls with
  | nil => intro acc; simp
  | cons a as ih =>
    intro acc
    simp only [List.map_cons, List.foldl_cons, List.flatten_cons]
    have h1 : String.mk acc ++ String.mk a = String.mk (acc ++ a) := rfl
    rw [h1, ih (acc ++ a), List.append_assoc]

theorem join_chunkText (text : String) : String.join (chunkText text) = text := by
  have h := foldl_strAppend_map_mk (chunksFrom text.data.length text.data) []
  have hflat := chunksFrom_flatten text.data.length text.data (le_refl _)
  unfold String.join chunkText
  have h0 : ("" : String) = String.mk [] := rfl
  rw [h0, h, hflat]
  rfl

theorem chunkText_length_le (text : String) (ch : String) (h : ch ∈ chunkText text) :
    ch.length ≤ 2000 := by
  unfold chunkText at h
  rcases List.mem_map.mp h with ⟨l, hl, rfl⟩
  have := chunksFrom_mem_length text.data.length text.data l hl
  simpa [String.length] using this

/-! ### Reply-cache lemmas -/

theorem lookupStore_none_of_not_mem (store : List (Option String × CachedMsg))
    (k : Option String) (h : k ∉ store.map Prod.fst) : lookupStore store k = none := by
  induction store with
  | nil => rfl
  | cons p ps ih =>
    simp only [List.map_cons, List.mem_cons, not_or] at h
    simp only [lookupStore]
    rw [if_neg (fun hh => h.1 hh.symm)]
    exact ih h.2

theorem lookupStore_isSome_of_mem (store : List (Option String × CachedMsg))
    (k : Option String) (h : k ∈ store.map Prod.fst) : (lookupStore store k).isSome := by
  induction store with
  | nil => simp at h
  | cons p ps ih =>
    by_cases hp : p.1 = k
    · simp [lookupStore, hp]
    · simp only [List.map_cons, List.mem_cons] at h
      rcases h with h | h
      · exact absurd h.symm hp
      · simp only [lookupStore, if_neg hp]
        exact ih h

theorem setStore_fresh (store : List (Option String × CachedMsg)) (k : Option String)
    (v : CachedMsg) (h : lookupStore store k = none) : setStore store k v = store ++ [(k, v)] := by
  induction store with
  | nil => rfl
  | cons p ps ih =>
    by_cases hp : p.1 = k
    · simp [lookupStore, hp] at h
    · simp only [lookupStore, if_neg hp] at h
      simp only [setStore, if_neg hp, List.cons_append]
      rw [ih h]

theorem cache_messages_fold_fresh :
    ∀ (entries : List (Option String × String × String))
      (store : List (Option String × CachedMsg)),
      (∀ e ∈ entries, e.1 ∉ store.map Prod.fst) →
      (entries.map Prod.fst).Nodup →
      store.length + entries.length ≤ MESSAGE_STORE_SIZE →
      cache_messages_fold store entries
        = store ++ entries.map (fun e => (e.1, (⟨e.2.1, e.2.2⟩ : CachedMsg))) := by
  intro entries
  induction entries with
  | nil => intro store _ _ _; simp [cache_messages_fold]
  | cons e es ih =>
    intro store hfresh hnodup hlen
    have hstep : cache_messages_fold store (e :: es)
        = cache_messages_fold (cache_message store e.1 e.2.1 e.2.2) es := rfl
    have hlt : ¬ MESSAGE_STORE_SIZE ≤ store.length := by
      simp only [List.length_cons] at hlen
      omega
    have hcm : cache_message store e.1 e.2.1 e.2.2 = store ++ [(e.1, ⟨e.2.1, e.2.2⟩)] := by
      unfold cache_message
      rw [if_neg hlt]
      exact setStore_fresh store e.1 _ (lookupStore_none_of_not_mem _ _ (hfresh e (by simp)))
    have hfresh' : ∀ x ∈ es,
        x.1 ∉ (store ++ [(e.1, (⟨e.2.1, e.2.2⟩ : CachedMsg))]).map Prod.fst := by
      intro x hx
      simp only [List.map_append, List.map_cons, List.map_nil, List.mem_append,
        List.mem_singleton, not_or]
      refine ⟨hfresh x (by simp [hx]), ?_⟩
      intro hxk
      simp only [List.map_cons, List.nodup_cons] at hnodup
      exact hnodup.1 (by rw [← hxk]; exact List.mem_map_of_mem Prod.fst hx)
    have hnodup' : (es.map Prod.fst).Nodup := by
      simp only [List.map_cons, List.nodup_cons] at hnodup
      exact hnodup.2
    have hlen' : (store ++ [(e.1, (⟨e.2.1, e.2.2⟩ : CachedMsg))]).length + es.length
        ≤ MESSAGE_STORE_SIZE := by
      simp only [List.length_append, List.length_cons, List.length_nil] at hlen ⊢
      omega
    rw [hstep, hcm, ih _ hfresh' hnodup' hlen']
    simp [List.append_assoc]

/-! ### Handler lemmas -/

theorem handle_event_run (st : BotState) (e : Event) (t : Nat)
    (o : String → ProviderOutcome) (p : Nat) (so : Nat → SendOutcome) (rt : String)
    (hdr : e.isDeliveryOrRead = false)
    (hfresh : st.processed.contains e.mid = false)
    (hcap : st.processed.length < MESSAGE_CACHE_SIZE)
    (hrt : (generate_response st.mem e.sender (handlePrompt st e) t o).result
      = Except.ok rt) :
    handle_event st e t o p so = Except.ok
      (⟨(generate_response st.mem e.sender (handlePrompt st e) t o).state,
        st.processed ++ [e.mid],
        (send_message (cache_message st.message_store e.mid e.text "user") e.sender rt so).1⟩,
       true,
       (send_message (cache_message st.message_store e.mid e.text "user") e.sender rt so).2) := by
  have hnopop : ¬ MESSAGE_CACHE_SIZE < (st.processed ++ [e.mid]).length := by
    simp only [List.length_append, List.length_cons, List.length_nil]
    omega
  unfold handle_event
  rw [hdr, hfresh]
  simp only [Bool.false_eq_true, if_false, if_neg hnopop, hrt]

theorem handle_event_skip (st : BotState) (e : Event) (t : Nat)
    (o : String → ProviderOutcome) (p : Nat) (so : Nat → SendOutcome)
    (hdr : e.isDeliveryOrRead = false)
    (hseen : st.processed.contains e.mid = true) :
    handle_event st e t o p so = Except.ok (st, false, []) := by
  unfold handle_event
  rw [hdr, hseen]
  simp

theorem midKeys_nodup : ((midEntry 0 :: restEntries).map Prod.fst).Nodup := by
  have hinj : Function.Injective (fun i : Nat => (midEntry i).1) := by
    intro i j h
    simp only [midEntry] at h
    have h1 := Option.some.inj h
    have h2 : List.replicate i 'a' = List.replicate j 'a' := congrArg String.data h1
    have h3 := congrArg List.length h2
    simpa using h3
  have hform : (midEntry 0 :: restEntries).map Prod.fst
      = (List.range 201).map (fun i : Nat => (midEntry i).1) := by
    rw [show (201 : Nat) = 200 + 1 from rfl, List.range_succ_eq_map]
    simp [restEntries, List.map_map, Function.comp]
  rw [hform]
  exact (List.nodup_range 201).map hinj

theorem restEntries_length : restEntries.length = MESSAGE_STORE_SIZE := by
  simp [restEntries, MESSAGE_STORE_SIZE]

/-! ### Claim theorems -/

/-- C1: the claim says the payload sent to the provider is
`[system] + prior history + exactly one copy of the new user message`.
The code violates this: for a user with an existing, non-expired record,
`get_user_memory` returns the live list object, `add_to_memory` appends the
new user message to that same object *before* `messages.extend(history)`
reads it, so the payload carries the new user message twice.  Evaluated here
at a user whose record holds two turns: the payload is
`[system, hi, yo, Q, Q]` and the new message occurs twice. -/
theorem generate_response_duplicates_user_message :
    (generate_response ⟨[[⟨"user", "hi"⟩, ⟨"assistant", "yo"⟩]], [("u", ⟨0, 100⟩)]⟩
        "u" "Q" 120 oracle429).messages
      = [⟨"system", GROQ_SYSTEM_PROMPT⟩, ⟨"user", "hi"⟩, ⟨"assistant", "yo"⟩,
         ⟨"user", "Q"⟩, ⟨"user", "Q"⟩]
    ∧ ((generate_response ⟨[[⟨"user", "hi"⟩, ⟨"assistant", "yo"⟩]], [("u", ⟨0, 100⟩)]⟩
        "u" "Q" 120 oracle429).messages.count (⟨"user", "Q"⟩ : Message)) = 2 := by
  constructor
  · rfl
  · rfl

/-- C2: the claim says `generate_response` never propagates an exception,
including for a success-status response whose JSON body lacks the
`choices/message/content` fields.  The code violates this: the `KeyError`
raised when extracting the content of such a body is not a
`requests.RequestException`, so the `except` clause does not catch it and it
propagates.  Evaluated here at a single malformed 200 response. -/
theorem generate_response_malformed_success_raises :
    (generate_response ⟨[], []⟩ "u" "hello" 0 oracle200none).result
      = Except.error () := by
  rfl

/-- C3 counterexample: the claim says the text returned by the completion
step is appended to memory as an assistant turn *including* the degraded
all-models-failed case.  At an input where every model is rate-limited the
code returns the fixed fallback string but memory keeps only the user turn:
no assistant turn is appended, refuting the claim. -/
theorem fallback_reply_not_appended :
    (generate_response ⟨[], []⟩ "u" "hi" 0 oracle429).result = Except.ok FALLBACK_REPLY
    ∧ userMessages (generate_response ⟨[], []⟩ "u" "hi" 0 oracle429).state "u"
      = [⟨"user", "hi"⟩] := by
  constructor
  · rfl
  · rfl

/-- C3 amended: when some model succeeds, the trimmed returned text is
appended to the user's memory as an assistant turn (subject to the
`MEMORY_MAX_MESSAGES` trim); when every model fails or is rate-limited, the
fallback string is returned and the memory state is left unchanged, so the
fallback is *not* appended. -/
theorem assistant_append_on_success_only (s : MemState) (uid : String)
    (o : String → ProviderOutcome) (t : Nat) (hwf : WF s) :
    (∀ ms : List String, (∀ x ∈ ms, attempt_fails (o x) = true) →
        (try_models s uid o t ms).result = Except.ok FALLBACK_REPLY
        ∧ (try_models s uid o t ms).state = s)
    ∧ (∀ (ms₁ : List String) (m : String) (ms₂ : List String) (status : Nat) (c : String),
        (∀ x ∈ ms₁, attempt_fails (o x) = true) →
        o m = ProviderOutcome.respond status (some c) →
        attempt_fails (o m) = false →
        (try_models s uid o t (ms₁ ++ m :: ms₂)).result = Except.ok c.trim
        ∧ userMessages (try_models s uid o t (ms₁ ++ m :: ms₂)).state uid
          = (userMessages s uid ++ [(⟨"assistant", c.trim⟩ : Message)]).drop
              ((userMessages s uid).length + 1 - MEMORY_MAX_MESSAGES)) := by
  constructor
  · intro ms h
    rw [try_models_all_fail s uid o t ms h]
    exact ⟨rfl, rfl⟩
  · intro ms₁ m ms₂ status c hfail hm hok
    rw [try_models_split s uid o t ms₁ m ms₂ status c hfail hm hok]
    exact ⟨rfl, userMessages_add s uid "assistant" c.trim t hwf⟩

theorem assistant_append_on_success_only_witness :
    WF (⟨[], []⟩ : MemState)
    ∧ ((try_models ⟨[], []⟩ "u" oracle429 0 ["A"]).result = Except.ok FALLBACK_REPLY
       ∧ (try_models ⟨[], []⟩ "u" oracle429 0 ["A"]).state = ⟨[], []⟩)
    ∧ ((try_models ⟨[], []⟩ "u" oracleAB 0 (["A"] ++ "B" :: ["C"])).result
          = Except.ok ("  Hi there!  ".trim)
       ∧ userMessages (try_models ⟨[], []⟩ "u" oracleAB 0 (["A"] ++ "B" :: ["C"])).state "u"
          = (userMessages (⟨[], []⟩ : MemState) "u"
              ++ [(⟨"assistant", "  Hi there!  ".trim⟩ : Message)]).drop
              ((userMessages (⟨[], []⟩ : MemState) "u").length + 1 - MEMORY_MAX_MESSAGES)) :=
  ⟨by decide,
   (assistant_append_on_success_only ⟨[], []⟩ "u" oracle429 0 (by decide)).1 ["A"] (by decide),
   (assistant_append_on_success_only ⟨[], []⟩ "u" oracleAB 0 (by decide)).2 ["A"] "B" ["C"]
     200 "  Hi there!  " (by decide) (by decide) (by decide)⟩

/-- C4: the loop walks the model list in order, moving past every model that
raises, is rate-limited (429), or answers an error status; at the first
model that returns a successful well-formed result it returns the trimmed
content of the first choice, and the attempted-model list is exactly the
failing prefix plus that model — later models are never attempted. -/
theorem model_fallback_first_success (s : MemState) (uid : String)
    (o : String → ProviderOutcome) (t : Nat) (ms₁ : List String) (m : String)
    (ms₂ : List String) (status : Nat) (c : String)
    (hfail : ∀ x ∈ ms₁, attempt_fails (o x) = true)
    (hm : o m = ProviderOutcome.respond status (some c))
    (hok : attempt_fails (o m) = false) :
    (try_models s uid o t (ms₁ ++ m :: ms₂)).result = Except.ok c.trim
    ∧ (try_models s uid o t (ms₁ ++ m :: ms₂)).attempted = ms₁ ++ [m] := by
  rw [try_models_split s uid o t ms₁ m ms₂ status c hfail hm hok]
  exact ⟨rfl, rfl⟩

theorem model_fallback_first_success_witness :
    (try_models ⟨[], []⟩ "u" oracleAB 0 (["A"] ++ "B" :: ["C"])).result
        = Except.ok ("  Hi there!  ".trim)
    ∧ (try_models ⟨[], []⟩ "u" oracleAB 0 (["A"] ++ "B" :: ["C"])).attempted
        = ["A"] ++ ["B"] :=
  model_fallback_first_success ⟨[], []⟩ "u" oracleAB 0 ["A"] "B" ["C"] 200 "  Hi there!  "
    (by decide) (by decide) (by decide)

/-- C5: starting from a state with no record for the user, after the first
`k` of the given append calls the stored history equals the last
`MEMORY_MAX_MESSAGES` appended turns in order, and its length is
`min k MEMORY_MAX_MESSAGES`; in particular the bound holds after every
append, with the oldest entries dropped first. -/
theorem memory_bound_after_appends (s : MemState) (uid : String)
    (ts : List (String × String × Nat)) (hwf : WF s)
    (hfresh : lookupUser s.table uid = none) (k : Nat) :
    userMessages (append_turns s uid (ts.take k)) uid
        = lastN MEMORY_MAX_MESSAGES ((ts.take k).map toMsg)
    ∧ (userMessages (append_turns s uid (ts.take k)) uid).length
        = min (ts.take k).length MEMORY_MAX_MESSAGES := by
  have hempty : userMessages s uid = [] := by simp [userMessages, hfresh]
  obtain ⟨h1, _⟩ := userMessages_append_turns uid (ts.take k) s hwf
    (by rw [hempty]; simp)
  rw [hempty] at h1
  simp only [List.nil_append] at h1
  refine ⟨h1, ?_⟩
  rw [h1, length_lastN, List.length_map]
  exact Nat.min_comm _ _

theorem memory_bound_after_appends_witness :
    WF (⟨[], []⟩ : MemState)
    ∧ lookupUser ([] : List (String × UserRecord)) "u" = none
    ∧ (userMessages (append_turns ⟨[], []⟩ "u"
          ([("user", "a", 1), ("assistant", "b", 2), ("user", "c", 3)].take 2)) "u"
        = lastN MEMORY_MAX_MESSAGES
            (([("user", "a", 1), ("assistant", "b", 2), ("user", "c", 3)].take 2).map toMsg)
       ∧ (userMessages (append_turns ⟨[], []⟩ "u"
            ([("user", "a", 1), ("assistant", "b", 2), ("user", "c", 3)].take 2)) "u").length
        = min ([("user", "a", 1), ("assistant", "b", 2), ("user", "c", 3)].take 2).length
            MEMORY_MAX_MESSAGES) :=
  ⟨by decide, rfl,
   memory_bound_after_appends ⟨[], []⟩ "u"
     [("user", "a", 1), ("assistant", "b", 2), ("user", "c", 3)] (by decide) rfl 2⟩

/-- C6: when more than `MEMORY_IDLE_TIMEOUT` seconds have elapsed since the
record's `last_active` at the next `get_user_memory` call, the returned list
is empty, the stored record is reset to an empty record stamped with the
current time, and a subsequent `add_to_memory` yields a history holding only
the newly appended turn. -/
theorem idle_expiry_resets_memory (s : MemState) (uid : String) (t : Nat) (ud : UserRecord)
    (hwf : WF s) (hlk : lookupUser s.table uid = some ud)
    (hexp : t - ud.last_active > MEMORY_IDLE_TIMEOUT) :
    (get_user_memory s uid t).1.read (get_user_memory s uid t).2 = []
    ∧ lookupUser (get_user_memory s uid t).1.table uid = some ⟨s.heap.length, t⟩
    ∧ userMessages (get_user_memory s uid t).1 uid = []
    ∧ ∀ (role content : String) (t' : Nat),
        userMessages (add_to_memory (get_user_memory s uid t).1 uid role content t') uid
          = [⟨role, content⟩] := by
  have hget : get_user_memory s uid t
      = (⟨(s.heap ++ [[]]) ++ [[]], setUser s.table uid ⟨s.heap.length, t⟩⟩,
         (s.heap ++ [[]]).length) := by
    simp only [get_user_memory, hlk, if_pos hexp]
  have hm3 : userMessages (get_user_memory s uid t).1 uid = [] := by
    unfold userMessages
    rw [hget]
    simp only [table_mk, lookupUser_setUser_self, read_mk]
    rw [getD_append_left _ _ _ _ (by simp), getD_concat_length]
  refine ⟨?_, ?_, hm3, ?_⟩
  · rw [hget]
    exact getD_concat_length _ _ _
  · rw [hget]
    simp [lookupUser_setUser_self]
  · intro role content t'
    have hwf' : WF (get_user_memory s uid t).1 := WF_get s uid t hwf
    rw [userMessages_add _ _ _ _ _ hwf', hm3]
    simp [MEMORY_MAX_MESSAGES]

theorem idle_expiry_resets_memory_witness :
    WF (⟨[[⟨"user", "old"⟩]], [("u", ⟨0, 0⟩)]⟩ : MemState)
    ∧ lookupUser [("u", (⟨0, 0⟩ : UserRecord))] "u" = some ⟨0, 0⟩
    ∧ (100 - (0 : Nat) > MEMORY_IDLE_TIMEOUT)
    ∧ ((get_user_memory ⟨[[⟨"user", "old"⟩]], [("u", ⟨0, 0⟩)]⟩ "u" 100).1.read
          (get_user_memory ⟨[[⟨"user", "old"⟩]], [("u", ⟨0, 0⟩)]⟩ "u" 100).2 = []
       ∧ lookupUser (get_user_memory ⟨[[⟨"user", "old"⟩]], [("u", ⟨0, 0⟩)]⟩ "u" 100).1.table "u"
          = some ⟨1, 100⟩
       ∧ userMessages (get_user_memory ⟨[[⟨"user", "old"⟩]], [("u", ⟨0, 0⟩)]⟩ "u" 100).1 "u" = []
       ∧ ∀ (role content : String) (t' : Nat),
          userMessages (add_to_memory
              (get_user_memory ⟨[[⟨"user", "old"⟩]], [("u", ⟨0, 0⟩)]⟩ "u" 100).1
              "u" role content t') "u"
            = [⟨role, content⟩]) :=
  ⟨by decide, rfl, by decide,
   idle_expiry_resets_memory ⟨[[⟨"user", "old"⟩]], [("u", ⟨0, 0⟩)]⟩ "u" 100 ⟨0, 0⟩
     (by decide) rfl (by decide)⟩

/-- C9: the outbound send splits the reply into consecutive segments of at
most 2000 characters, posted in order, whose concatenation is the original
text; a 4500-character reply goes out as exactly 3 calls of lengths
2000, 2000, 500. -/
theorem send_message_chunking (store : List (Option String × CachedMsg))
    (recipient text : String) (sendO : Nat → SendOutcome) :
    (∀ ch ∈ (send_message store recipient text sendO).2, ch.length ≤ 2000)
    ∧ String.join (send_message store recipient text sendO).2 = text
    ∧ ((send_message store recipient (String.mk (List.replicate 4500 'a')) sendO).2.map
        String.length = [2000, 2000, 500]) := by
  refine ⟨?_, ?_, ?_⟩
  · exact fun ch hch => chunkText_length_le text ch hch
  · exact join_chunkText text
  · have hsnd : ∀ (st : List (Option String × CachedMsg)) (r txt : String)
        (so : Nat → SendOutcome), (send_message st r txt so).2 = chunkText txt :=
      fun _ _ _ _ => rfl
    rw [hsnd]
    unfold chunkText
    rw [List.map_map]
    have hcomp : (String.length ∘ String.mk) = List.length := rfl
    rw [hcomp, chunksFrom_map_length]
    have hdata : (String.mk (List.replicate 4500 'a')).data = List.replicate 4500 'a' := rfl
    rw [hdata, List.length_replicate]
    decide

theorem send_message_chunking_witness :
    (∀ ch ∈ (send_message [] "r" "hello" sendErr).2, ch.length ≤ 2000)
    ∧ String.join (send_message [] "r" "hello" sendErr).2 = "hello"
    ∧ ((send_message [] "r" (String.mk (List.replicate 4500 'a')) sendErr).2.map
        String.length = [2000, 2000, 500]) :=
  send_message_chunking [] "r" "hello" sendErr

/-- C7: starting from an empty reply cache, inserting
`MESSAGE_STORE_SIZE + 1` messages with pairwise-distinct mids leaves exactly
`MESSAGE_STORE_SIZE` entries; the first-inserted mid is no longer resolvable
while every later mid still is. -/
theorem reply_cache_capacity_eviction (e0 : Option String × String × String)
    (rest : List (Option String × String × String))
    (hnodup : ((e0 :: rest).map Prod.fst).Nodup)
    (hlen : rest.length = MESSAGE_STORE_SIZE) :
    (cache_messages_fold [] (e0 :: rest)).length = MESSAGE_STORE_SIZE
    ∧ lookupStore (cache_messages_fold [] (e0 :: rest)) e0.1 = none
    ∧ ∀ e ∈ rest, (lookupStore (cache_messages_fold [] (e0 :: rest)) e.1).isSome := by
  have hne : rest ≠ [] := by
    intro h
    rw [h] at hlen
    simp [MESSAGE_STORE_SIZE] at hlen
  obtain ⟨rest', elast, hsplit⟩ : ∃ l' a, rest = l' ++ [a] := by
    cases hr : rest.reverse with
    | nil =>
      exact absurd (by simpa using congrArg List.reverse hr) hne
    | cons a as =>
      exact ⟨as.reverse, a, by rw [← List.reverse_reverse rest, hr]; simp⟩
  subst hsplit
  have hlen' : rest'.length = 199 := by
    simp only [List.length_append, List.length_cons, List.length_nil,
      MESSAGE_STORE_SIZE] at hlen
    omega
  have hmapsplit : ((e0 :: (rest' ++ [elast])).map Prod.fst)
      = ((e0 :: rest').map Prod.fst) ++ [elast.1] := by
    simp
  rw [hmapsplit] at hnodup
  have hnodup1 : ((e0 :: rest').map Prod.fst).Nodup := (List.nodup_append.mp hnodup).1
  have hdisj : elast.1 ∉ (e0 :: rest').map Prod.fst := by
    intro hmem
    exact (List.nodup_append.mp hnodup).2.2 hmem (by simp)
  have hfold200 : cache_messages_fold [] (e0 :: rest')
      = (e0 :: rest').map (fun e => (e.1, (⟨e.2.1, e.2.2⟩ : CachedMsg))) := by
    apply cache_messages_fold_fresh (e0 :: rest') [] (by intro x _; simp) hnodup1
    simp only [List.length_nil, List.length_cons, hlen', MESSAGE_STORE_SIZE]
    omega
  have hkeys200 : ((e0 :: rest').map (fun e =>
      (e.1, (⟨e.2.1, e.2.2⟩ : CachedMsg)))).map Prod.fst = (e0 :: rest').map Prod.fst := by
    rw [List.map_map]
    rfl
  have hstep : cache_messages_fold [] (e0 :: (rest' ++ [elast]))
      = cache_message (cache_messages_fold [] (e0 :: rest')) elast.1 elast.2.1 elast.2.2 := by
    unfold cache_messages_fold
    rw [show (e0 :: (rest' ++ [elast])) = (e0 :: rest') ++ [elast] by simp,
      List.foldl_append]
    rfl
  have hfinal : cache_messages_fold [] (e0 :: (rest' ++ [elast]))
      = (rest' ++ [elast]).map (fun e => (e.1, (⟨e.2.1, e.2.2⟩ : CachedMsg))) := by
    rw [hstep, hfold200]
    unfold cache_message
    rw [if_pos (by simp [hlen', MESSAGE_STORE_SIZE])]
    have hdrop : ((e0 :: rest').map (fun e =>
        (e.1, (⟨e.2.1, e.2.2⟩ : CachedMsg)))).drop 1
        = rest'.map (fun e => (e.1, (⟨e.2.1, e.2.2⟩ : CachedMsg))) := by
      simp
    rw [hdrop, setStore_fresh]
    · simp
    · apply lookupStore_none_of_not_mem
      intro hmem
      apply hdisj
      rw [List.map_map] at hmem
      have : elast.1 ∈ rest'.map Prod.fst := hmem
      simp only [List.map_cons, List.mem_cons]
      exact Or.inr this
  have hkeysfinal : ((rest' ++ [elast]).map (fun e =>
      (e.1, (⟨e.2.1, e.2.2⟩ : CachedMsg)))).map Prod.fst
      = (rest' ++ [elast]).map Prod.fst := by
    rw [List.map_map]
    rfl
  refine ⟨?_, ?_, ?_⟩
  · rw [hfinal]
    simp [hlen', MESSAGE_STORE_SIZE]
  · rw [hfinal]
    apply lookupStore_none_of_not_mem
    rw [hkeysfinal]
    have h0 : e0.1 ∉ (rest' ++ [elast]).map Prod.fst := by
      have := hnodup
      rw [show ((e0 :: rest').map Prod.fst) ++ [elast.1]
          = e0.1 :: (rest'.map Prod.fst ++ [elast.1]) by simp] at this
      have hn := (List.nodup_cons.mp this).1
      simpa using hn
    exact h0
  · intro e he
    rw [hfinal]
    apply lookupStore_isSome_of_mem
    rw [hkeysfinal]
    exact List.mem_map_of_mem Prod.fst he

theorem reply_cache_capacity_eviction_witness :
    ((midEntry 0 :: restEntries).map Prod.fst).Nodup
    ∧ restEntries.length = MESSAGE_STORE_SIZE
    ∧ ((cache_messages_fold [] (midEntry 0 :: restEntries)).length = MESSAGE_STORE_SIZE
       ∧ lookupStore (cache_messages_fold [] (midEntry 0 :: restEntries)) (midEntry 0).1 = none
       ∧ ∀ e ∈ restEntries,
          (lookupStore (cache_messages_fold [] (midEntry 0 :: restEntries)) e.1).isSome) :=
  ⟨midKeys_nodup, restEntries_length,
   reply_cache_capacity_eviction (midEntry 0) restEntries midKeys_nodup restEntries_length⟩

/-- C8: delivering a text event with a given mid, and then a second text
event with the same mid, yields exactly one processed turn — the first
delivery runs the completion call and the outbound send sequence, the second
is silently skipped with no state change and no outbound call — provided the
dedup set was not already at capacity (so the arbitrary `set.pop()` cannot
have removed the mid in between) and the provider produced no malformed
success body. -/
theorem dedup_second_delivery_skipped (st : BotState) (e e' : Event) (t t' : Nat)
    (o o' : String → ProviderOutcome) (p p' : Nat) (so so' : Nat → SendOutcome)
    (hdr : e.isDeliveryOrRead = false) (hdr' : e'.isDeliveryOrRead = false)
    (hmid : e'.mid = e.mid)
    (hfresh : st.processed.contains e.mid = false)
    (hcap : st.processed.length < MESSAGE_CACHE_SIZE)
    (hb : OracleBenign o) :
    ∃ (st₁ : BotState) (chunks : List String),
      handle_event st e t o p so = Except.ok (st₁, true, chunks)
      ∧ st₁.processed = st.processed ++ [e.mid]
      ∧ handle_event st₁ e' t' o' p' so' = Except.ok (st₁, false, []) := by
  obtain ⟨rt, hrt⟩ := generate_response_benign st.mem e.sender (handlePrompt st e) t o hb
  refine ⟨_, _, handle_event_run st e t o p so rt hdr hfresh hcap hrt, rfl, ?_⟩
  apply handle_event_skip
  · exact hdr'
  · rw [hmid]
    simp

theorem dedup_second_delivery_skipped_witness :
    helloEvent.isDeliveryOrRead = false
    ∧ helloEvent.mid = helloEvent.mid
    ∧ (BotState.mk ⟨[], []⟩ [] []).processed.contains helloEvent.mid = false
    ∧ (BotState.mk ⟨[], []⟩ [] []).processed.length < MESSAGE_CACHE_SIZE
    ∧ ∃ (st₁ : BotState) (chunks : List String),
        handle_event ⟨⟨[], []⟩, [], []⟩ helloEvent 0 oracle429 0 sendErr
          = Except.ok (st₁, true, chunks)
        ∧ st₁.processed = (BotState.mk ⟨[], []⟩ [] []).processed ++ [helloEvent.mid]
        ∧ handle_event st₁ helloEvent 5 oracle429 0 sendErr = Except.ok (st₁, false, []) :=
  ⟨rfl, rfl, by decide, by decide,
   dedup_second_delivery_skipped ⟨⟨[], []⟩, [], []⟩ helloEvent helloEvent 0 5
     oracle429 oracle429 0 0 sendErr sendErr rfl rfl rfl (by decide) (by decide)
     (fun m status h => by
       cases h
       exact Or.inl rfl)⟩

/-- C10: when a text event's message lacks a `mid`, the dedup key is `None`;
the first such event is fully processed and `None` enters the processed-id
set, after which every later mid-less text event — any sender, any text —
is silently skipped as a duplicate while `None` remains in the set. -/
theorem missing_mid_dedup_none (st : BotState) (e : Event) (t : Nat)
    (o : String → ProviderOutcome) (p : Nat) (so : Nat → SendOutcome)
    (hdr : e.isDeliveryOrRead = false) (hmid : e.mid = none)
    (hfresh : st.processed.contains none = false)
    (hcap : st.processed.length < MESSAGE_CACHE_SIZE)
    (hb : OracleBenign o) :
    ∃ (st₁ : BotState) (chunks : List String),
      handle_event st e t o p so = Except.ok (st₁, true, chunks)
      ∧ st₁.processed.contains none = true
      ∧ ∀ (e' : Event) (t' : Nat) (o' : String → ProviderOutcome) (p' : Nat)
          (so' : Nat → SendOutcome), e'.isDeliveryOrRead = false → e'.mid = none →
          handle_event st₁ e' t' o' p' so' = Except.ok (st₁, false, []) := by
  obtain ⟨rt, hrt⟩ := generate_response_benign st.mem e.sender (handlePrompt st e) t o hb
  have hfresh' : st.processed.contains e.mid = false := by rw [hmid]; exact hfresh
  refine ⟨_, _, handle_event_run st e t o p so rt hdr hfresh' hcap hrt, ?_, ?_⟩
  · rw [hmid]
    simp
  · intro e' t' o' p' so' hdr' hmid'
    apply handle_event_skip
    · exact hdr'
    · rw [hmid', hmid]
      simp

theorem missing_mid_dedup_none_witness :
    noMidEvent.isDeliveryOrRead = false
    ∧ noMidEvent.mid = none
    ∧ (BotState.mk ⟨[], []⟩ [] []).processed.contains none = false
    ∧ (BotState.mk ⟨[], []⟩ [] []).processed.length < MESSAGE_CACHE_SIZE
    ∧ noMidEvent2.isDeliveryOrRead = false
    ∧ noMidEvent2.mid = none
    ∧ ∃ (st₁ : BotState) (chunks : List String),
        handle_event ⟨⟨[], []⟩, [], []⟩ noMidEvent 0 oracle429 0 sendErr
          = Except.ok (st₁, true, chunks)
        ∧ st₁.processed.contains none = true
        ∧ ∀ (e' : Event) (t' : Nat) (o' : String → ProviderOutcome) (p' : Nat)
            (so' : Nat → SendOutcome), e'.isDeliveryOrRead = false → e'.mid = none →
            handle_event st₁ e' t' o' p' so' = Except.ok (st₁, false, []) :=
  ⟨rfl, rfl, by decide, by decide, rfl, rfl,
   missing_mid_dedup_none ⟨⟨[], []⟩, [], []⟩ noMidEvent 0 oracle429 0 sendErr
     rfl rfl (by decide) (by decide)
     (fun m status h => by
       cases h
       exact Or.inl rfl)⟩

end MessengerBot
